import Mathlib

/-!
Verification of the flex-graphql-article repository (src/flex-graphql-article/index.js).

The file holds two revisions of the same module.  Revision 2 (the current one,
lines 174-331) defines `promisify`, `fetchFriendData`, `logPromiseError`,
`getAge` and `setAge`, each taking the per-request `context`.  Revision 1
(lines 1-174) defines `promisify`, `getAge` and `changeAge` over a module-level
`references` object that is lazily assigned once.

Shallow embedding conventions:
- A stored document is a `Record`: the Kinvey `_id` field (assigned by the
  store on insert) is `rid : Option Nat`, `name` is the lookup key, `age` is an
  optional integer (a JS object may lack the field entirely), and `extra`
  stands for any further fields a document may carry.
- The external Kinvey document store (spec sect. 6, a collaborator that is not
  code of this repository) is a `List Record`; `find` with an equality query on
  `name` returns the matching records in store order, and `save` inserts a
  record without `_id` (assigning a fresh one) or replaces the record with the
  same `_id`.
- JS truthiness on the optional integer age: `undefined` and `0` are falsy.
- Promise results are `Outcome` values; the error log written through
  `flex.logger.error` is returned as an explicit list of logged values.
-/

/-- A JavaScript value, as far as these programs observe them: the dynamic
values that flow through callbacks, property reads and template strings. -/
inductive JSVal where
  | undef : JSVal
  | null : JSVal
  | bool : Bool → JSVal
  | num : Int → JSVal
  | str : String → JSVal
deriving DecidableEq

/-- JS truthiness for the values of `JSVal`. -/
def truthyVal : JSVal → Bool
  | JSVal.undef => false
  | JSVal.null => false
  | JSVal.bool b => b
  | JSVal.num n => n != 0
  | JSVal.str s => s != ""

/-- Conversion of a `JSVal` to the text produced by JS template-string
interpolation. -/
def jsToString : JSVal → String
  | JSVal.undef => "undefined"
  | JSVal.null => "null"
  | JSVal.bool b => if b then "true" else "false"
  | JSVal.num n => toString n
  | JSVal.str s => s

/-- A document of the "FriendsAges" collection.  `rid` is the Kinvey `_id`
(absent until the store assigns one on insert), `age` may be absent on the
JS object, and `extra` stands for whatever further fields the document has. -/
structure Record where
  rid : Option Nat
  name : String
  age : Option Int
  extra : List (String × Int)
deriving DecidableEq

/-- Result of `dataStore().collection("FriendsAges").find(Query.equalTo("name",
name))` followed by `data[0]` (revision 2 `fetchFriendData`, lines 217-221, and
revision 1 `result[0]`): the first stored record whose name equals the key. -/
def findByName (name : String) (s : List Record) : Option Record :=
  (s.filter (fun r => r.name == name)).head?

/-- The `_id` the store hands out on insert: one past every id in use. -/
def ridBound : Option Nat → Nat
  | some j => j + 1
  | none => 0

/-- Fresh `_id` for an insert into store `s`. -/
def freshId (s : List Record) : Nat :=
  s.foldr (fun r m => max (ridBound r.rid) m) 0

/-- Replace every record carrying `_id` `i` by `r` (the store's update). -/
def replaceById (i : Nat) (r : Record) (s : List Record) : List Record :=
  s.map (fun q => if q.rid = some i then r else q)

/-- The store's `save(record)` (spec sect. 6 collaborator): a record without
`_id` is inserted with a fresh one; a record with `_id` replaces the stored
record with that `_id`.  Returns the persisted record and the new store. -/
def saveRecord (s : List Record) (r : Record) : Record × List Record :=
  match r.rid with
  | some i => (r, replaceById i r s)
  | none =>
    let saved := { r with rid := some (freshId s) }
    (saved, s ++ [saved])

/-- Well-formed store: every stored record has an `_id` and the `_id`s are
pairwise distinct (the store assigns them, so this always holds in reality). -/
def WF (s : List Record) : Prop :=
  (∀ r ∈ s, r.rid.isSome = true) ∧ (s.map Record.rid).Nodup

/-- The "not set" sentence of revision 2 `getAge` (line 247). -/
def notSetMsg (name : String) : String :=
  "Sorry. You still have not set age for your friend - " ++ name ++
    ". You can do that now."

/-- The "age is" sentence of revision 2 `getAge` (line 249). -/
def ageMsg (name : String) (age : Int) : String :=
  "Your friend - " ++ name ++ "\x27s age is " ++ toString age ++ "."

/-- JS `!data.age` for an optional integer age: `undefined` is falsy and so is
the number `0`. -/
def jsFalsyAge : Option Int → Bool
  | none => true
  | some v => v == 0

/-- The message computed by revision 2 `getAge` (lines 245-250) from the
looked-up record: `if (!data || !data.age)` the "not set" sentence, otherwise
the "age is" sentence. -/
def readMessage (name : String) (data : Option Record) : String :=
  match data with
  | none => notSetMsg name
  | some d =>
    if jsFalsyAge d.age then notSetMsg name
    else ageMsg name (d.age.getD 0)

/-- Revision 2 `getAge` (lines 243-252) on the success path of the store:
fetch the friend's record, then render the message. -/
def getAge (name : String) (s : List Record) : String :=
  readMessage name (findByName name s)

/-- The record revision 2 `setAge` (lines 263-269) hands to `save`: a fresh
`{ name, age }` object when the lookup found nothing, otherwise the looked-up
record with its `age` field set to the supplied value. -/
def toSave (name : String) (age : Int) (data : Option Record) : Record :=
  match data with
  | none => { rid := none, name := name, age := some age, extra := [] }
  | some d => { d with age := some age }

/-- Revision 2 `setAge` (lines 261-273) on the success path of the store:
fetch, choose the record to save, save it, and return the persisted record's
`age` field together with the new store state. -/
def setAge (name : String) (age : Int) (s : List Record) : Option Int × List Record :=
  let res := saveRecord s (toSave name age (findByName name s))
  (res.1.age, res.2)

/-- A promise outcome: fulfilled with a value, or rejected with an error. -/
inductive Outcome (α : Type) where
  | ok : α → Outcome α
  | err : JSVal → Outcome α
deriving DecidableEq

/-- Revision 2 `getAge` with the store's answer to the `find` call made
explicit (`Except.error e` is a store failure).  The second component is the
list of values logged through `context.flex.logger.error`: on failure the
`.catch` calls `logPromiseError` (lines 229-235), which logs the error once
and returns `Promise.reject(error)`. -/
def getAgeE (name : String) (findRes : Except JSVal (List Record)) :
    Outcome String × List JSVal :=
  match findRes with
  | Except.error e => (Outcome.err e, [e])
  | Except.ok rs => (Outcome.ok (readMessage name rs.head?), [])

/-- Revision 2 `setAge` with the store's behaviour made explicit: `findRes` is
the answer to the `find` call and `saveRes` the store's answer to `save` on a
given record.  Any store error goes through `logPromiseError`: logged once and
rejected. -/
def setAgeE (name : String) (age : Int) (findRes : Except JSVal (List Record))
    (saveRes : Record → Except JSVal Record) : Outcome (Option Int) × List JSVal :=
  match findRes with
  | Except.error e => (Outcome.err e, [e])
  | Except.ok rs =>
    match saveRes (toSave name age rs.head?) with
    | Except.error e => (Outcome.err e, [e])
    | Except.ok saved => (Outcome.ok saved.age, [])

/-!
Revision 1 (lines 1-174 of the source).  Its `getAge` builds an intermediate
`preparedResponse` object `{ success, message }` and then formats it; the
formatting step reads the property written `mess` + CYRILLIC SMALL LETTER A,
GHE, IE (source line 72), which is a different property name than the Latin
`message` written on line 60, so the read yields `undefined`.  JS objects are
embedded as association lists from property names to `JSVal`; reading an
absent property yields `JSVal.undef`.
-/

/-- JS property read on an object: the stored value, or `undefined` when the
property is absent. -/
def getProp (o : List (String × JSVal)) (k : String) : JSVal :=
  match o.lookup k with
  | some v => v
  | none => JSVal.undef

/-- The sentence revision 1 stores under `message` on the failure branch
(line 60). -/
def unsetMsg1 (name : String) : String :=
  "You still have not set age for " ++ name ++ "."

/-- The property name read on source line 72: Latin `mess` followed by
CYRILLIC SMALL LETTER A (U+0430), GHE (U+0433) and IE (U+0435) - a homoglyph
of the Latin `message` under which the sentence was stored. -/
def homoglyphKey : String := "messаге"

/-- First `.then` of revision 1 `getAge` (lines 55-68): prepare the response
object.  The unset test is `!result[0] || !result[0].hasOwnProperty("age")`,
so it checks PRESENCE of the `age` field, not its truthiness. -/
def mkPrepared1 (name : String) (data : Option Record) : List (String × JSVal) :=
  match data with
  | none => [("success", JSVal.bool false), ("message", JSVal.str (unsetMsg1 name))]
  | some r =>
    match r.age with
    | none => [("success", JSVal.bool false), ("message", JSVal.str (unsetMsg1 name))]
    | some a => [("success", JSVal.bool true), ("message", JSVal.num a)]

/-- Second `.then` of revision 1 `getAge` (lines 69-76): format the prepared
response.  The failure branch interpolates the homoglyph-named property. -/
def formatResponse1 (name : String) (p : List (String × JSVal)) : String :=
  if truthyVal (getProp p "success") then
    "Your friend - " ++ name ++ "\x27s age is " ++
      jsToString (getProp p "message") ++ "."
  else
    "Sorry. " ++ jsToString (getProp p homoglyphKey)

/-- Revision 1 `getAge` (lines 50-80) on the success path of the store. -/
def getAge1 (name : String) (s : List Record) : String :=
  formatResponse1 name (mkPrepared1 name (findByName name s))

/-- Revision 1 `getAge` with the store's answer made explicit.  On a store
error the `.catch` (lines 77-79) calls `references.flex.logger.error(error)`
and returns its `undefined` result, so the promise RESOLVES with `undefined`
after logging once - the rejection is swallowed. -/
def getAge1E (name : String) (findRes : Except JSVal (List Record)) :
    Outcome JSVal × List JSVal :=
  match findRes with
  | Except.error e => (Outcome.ok JSVal.undef, [e])
  | Except.ok rs =>
    (Outcome.ok (JSVal.str (formatResponse1 name (mkPrepared1 name rs.head?))), [])

/-!
The callback-to-promise adapter of revision 2 (`promisify`, lines 198-209).
A call `promisify(func)(...args)` invokes `func(...args, handler)` where the
handler settles the promise error-first.  The JS argument list is embedded as
a `List Arg`: plain values and the trailing callback.
-/

/-- A settled promise over values of type `α`. -/
inductive Promise (α : Type) where
  | resolved : α → Promise α
  | rejected : JSVal → Promise α

/-- The type of the error-first callback handed to the wrapped operation. -/
def Handler : Type := JSVal → JSVal → Promise JSVal

/-- One argument of a JS call as `promisify` produces it: a plain value, or
the trailing callback. -/
inductive Arg where
  | val : JSVal → Arg
  | cb : Handler → Arg

/-- The handler `promisify` appends (lines 201-206): reject on a truthy
error, otherwise resolve with the data. -/
def errorFirst : Handler :=
  fun error data =>
    if truthyVal error then Promise.rejected error else Promise.resolved data

/-- Revision 2 `promisify` (lines 198-209): the wrapped operation is a
function of its full JS argument list; `promisify func args` calls it on the
supplied arguments in order with the error-first handler appended last, and
the promise settles as that handler is invoked. -/
def promisify (func : List Arg → Promise JSVal) (args : List JSVal) : Promise JSVal :=
  func (args.map Arg.val ++ [Arg.cb errorFirst])

/-- The callback found in the last position of a JS argument list, if any:
how a callback-style operation locates its handler. -/
def lastHandler : List Arg → Option Handler
  | [] => none
  | [Arg.cb k] => some k
  | [Arg.val _] => none
  | _ :: a :: rest => lastHandler (a :: rest)

/-- A wrapped operation that invokes its trailing handler with the fixed pair
`(e, d)` - the shape of any single-shot callback-style operation. -/
def invokeWith (e d : JSVal) : List Arg → Promise JSVal :=
  fun xs =>
    match lastHandler xs with
    | some k => k e d
    | none => Promise.rejected JSVal.undef

/-- The plain (non-callback) values of a JS argument list, in order: the
positional arguments a wrapped operation sees ahead of its handler. -/
def positionalArgs (xs : List Arg) : List JSVal :=
  xs.filterMap (fun a =>
    match a with
    | Arg.val v => some v
    | Arg.cb _ => none)

/-- A wrapped operation that computes `f` over the positional arguments it
receives and reports the result through its trailing handler with a null
error: an observer for how `promisify` forwards arguments. -/
def echoOp (f : List JSVal → JSVal) (xs : List Arg) : Promise JSVal :=
  match lastHandler xs with
  | some k => k JSVal.null (f (positionalArgs xs))
  | none => Promise.rejected JSVal.undef

/-!
Revision 1's module-level `references` object (lines 20-23) and its lazy
assignment: `references.flex` is set inside the service callback when it is
still falsy (lines 156-158), `references.modules` inside the registered
request handler when it is still falsy (lines 163-165).  `getAge` and
`changeAge` reach the store and the logger only through
`references.modules` / `references.flex`.  Handles are identified by opaque
numerals; the lifecycle is a list of events folded over the state.
-/

/-- The module-level `references` object: both handles start out `null`. -/
structure References where
  modules : Option Nat
  flex : Option Nat
deriving DecidableEq

/-- One lifecycle event of revision 1: a service initialization that succeeds
with a flex handle, one that fails (the callback returns early, lines
150-153), or an inbound request carrying its per-request modules handle. -/
inductive Event where
  | initOk : Nat → Event
  | initErr : Event
  | request : Nat → Event
deriving DecidableEq

/-- The assignments revision 1 performs on one event: `if (!references.flex)
references.flex = flex` on successful init, nothing on failed init, and
`if (!references.modules) references.modules = modules` on a request. -/
def stepReferences (refs : References) (e : Event) : References :=
  match e with
  | Event.initOk f => if refs.flex = none then { refs with flex := some f } else refs
  | Event.initErr => refs
  | Event.request m =>
    if refs.modules = none then { refs with modules := some m } else refs

/-- The flex handle of the first successful initialization in an event list. -/
def firstFlex : List Event → Option Nat
  | [] => none
  | Event.initOk f :: _ => some f
  | Event.initErr :: es => firstFlex es
  | Event.request _ :: es => firstFlex es

/-- The modules handle carried by the first request in an event list. -/
def firstModules : List Event → Option Nat
  | [] => none
  | Event.request m :: _ => some m
  | Event.initOk _ :: es => firstModules es
  | Event.initErr :: es => firstModules es

/-- For each request event, the modules handle `references.modules` holds
while that request runs (the handler performs its lazy assignment first, then
`getAge` / `changeAge` read `references.modules`). -/
def runRequests (refs : References) : List Event → List (Option Nat)
  | [] => []
  | e :: es =>
    match e with
    | Event.request _ =>
      let next := stepReferences refs e
      next.modules :: runRequests next es
    | _ => runRequests (stepReferences refs e) es

/-!
Supporting lemmas about the store model.
-/

/-- Unfolding of the first-match lookup on a cons cell. -/
theorem findByName_cons (name : String) (r : Record) (s : List Record) :
    findByName name (r :: s) = if r.name == name then some r else findByName name s := by
  unfold findByName
  rw [List.filter_cons]
  by_cases h : (r.name == name) = true
  · simp [h]
  · simp [h]

/-- A successful first-match lookup splits the store into a prefix with no
match, the found record, and the rest. -/
theorem findByName_decomp (name : String) (s : List Record) (d : Record)
    (h : findByName name s = some d) :
    ∃ l1 l2, s = l1 ++ d :: l2 ∧ (∀ q ∈ l1, (q.name == name) = false) ∧
      (d.name == name) = true := by
  induction s with
  | nil => simp [findByName] at h
  | cons r t ih =>
    rw [findByName_cons] at h
    by_cases hr : (r.name == name) = true
    · rw [if_pos hr] at h
      obtain rfl : r = d := Option.some.inj h
      exact ⟨[], t, rfl, by simp, hr⟩
    · rw [if_neg hr] at h
      obtain ⟨l1, l2, rfl, h1, h2⟩ := ih h
      refine ⟨r :: l1, l2, rfl, ?_, h2⟩
      intro q hq
      rcases List.mem_cons.mp hq with rfl | hq
      · exact Bool.not_eq_true _ ▸ hr
      · exact h1 q hq

/-- When the left part has no match, lookup skips it. -/
theorem findByName_append_left (name : String) (s t : List Record)
    (h : ∀ q ∈ s, (q.name == name) = false) :
    findByName name (s ++ t) = findByName name t := by
  induction s with
  | nil => rfl
  | cons r u ih =>
    rw [List.cons_append, findByName_cons,
      if_neg (by rw [h r (List.mem_cons_self r u)]; decide)]
    exact ih fun q hq => h q (List.mem_cons_of_mem r hq)

/-- When the whole lookup fails, every stored record mismatches the name. -/
theorem findByName_none (name : String) (s : List Record)
    (h : findByName name s = none) : ∀ q ∈ s, (q.name == name) = false := by
  induction s with
  | nil => intro q hq; cases hq
  | cons r t ih =>
    rw [findByName_cons] at h
    by_cases hr : (r.name == name) = true
    · rw [if_pos hr] at h; cases h
    · rw [if_neg hr] at h
      intro q hq
      rcases List.mem_cons.mp hq with rfl | hq
      · exact Bool.not_eq_true _ ▸ hr
      · exact ih h q hq

/-- First-match lookup lands on the middle record when the prefix has no
match and the middle one matches. -/
theorem findByName_append_mid (name : String) (l1 l2 : List Record) (d : Record)
    (h1 : ∀ q ∈ l1, (q.name == name) = false) (hd : (d.name == name) = true) :
    findByName name (l1 ++ d :: l2) = some d := by
  rw [findByName_append_left name l1 (d :: l2) h1, findByName_cons, if_pos hd]

/-- Replacing by an `_id` no element carries leaves a list unchanged. -/
theorem replaceById_skip (i : Nat) (r : Record) (l : List Record)
    (h : ∀ q ∈ l, q.rid ≠ some i) :
    l.map (fun q => if q.rid = some i then r else q) = l := by
  induction l with
  | nil => rfl
  | cons a t ih =>
    rw [List.map_cons, if_neg (h a (List.mem_cons_self a t)),
      ih fun q hq => h q (List.mem_cons_of_mem a hq)]

/-- Replacing by the `_id` of the middle record rewrites exactly that
record when neither side carries the `_id`. -/
theorem replaceById_decomp (i : Nat) (r d : Record) (l1 l2 : List Record)
    (hd : d.rid = some i)
    (h1 : ∀ q ∈ l1, q.rid ≠ some i) (h2 : ∀ q ∈ l2, q.rid ≠ some i) :
    replaceById i r (l1 ++ d :: l2) = l1 ++ r :: l2 := by
  unfold replaceById
  rw [List.map_append, List.map_cons, if_pos hd, replaceById_skip i r l1 h1,
    replaceById_skip i r l2 h2]

/-- In a store with pairwise distinct `_id`s, the `_id` of the middle record
appears on neither side. -/
theorem rid_not_in_sides (l1 l2 : List Record) (d : Record) (i : Nat)
    (hnd : ((l1 ++ d :: l2).map Record.rid).Nodup) (hd : d.rid = some i) :
    (∀ q ∈ l1, q.rid ≠ some i) ∧ (∀ q ∈ l2, q.rid ≠ some i) := by
  rw [List.map_append, List.map_cons] at hnd
  constructor
  · intro q hq he
    have hdisj := List.disjoint_of_nodup_append hnd
    exact hdisj (List.mem_map_of_mem Record.rid hq)
      (by rw [he, ← hd]; exact List.mem_cons_self _ _)
  · intro q hq he
    have hright := hnd.of_append_right
    rw [List.nodup_cons] at hright
    exact hright.1 (by rw [hd, ← he]; exact List.mem_map_of_mem Record.rid hq)

/-- Every `_id` in use is below the fresh one. -/
theorem freshId_gt (s : List Record) (r : Record) (i : Nat)
    (hr : r ∈ s) (hi : r.rid = some i) : i < freshId s := by
  induction s with
  | nil => cases hr
  | cons a t ih =>
    have hstep : freshId (a :: t) = max (ridBound a.rid) (freshId t) := rfl
    rcases List.mem_cons.mp hr with rfl | hmem
    · rw [hstep, hi]
      exact lt_of_lt_of_le (Nat.lt_succ_self i) (le_max_left _ _)
    · rw [hstep]
      exact lt_of_lt_of_le (ih hmem) (le_max_right _ _)

/-- Appending a record carrying the fresh `_id` preserves well-formedness. -/
theorem wf_append_fresh (s : List Record) (nm : String) (a : Option Int)
    (x : List (String × Int)) (hw : WF s) :
    WF (s ++ [{ rid := some (freshId s), name := nm, age := a, extra := x }]) := by
  constructor
  · intro r hr
    rcases List.mem_append.mp hr with hmem | hmem
    · exact hw.1 r hmem
    · rcases List.mem_singleton.mp hmem with rfl
      rfl
  · rw [List.map_append, List.map_singleton]
    rw [List.nodup_append]
    refine ⟨hw.2, List.nodup_singleton _, ?_⟩
    intro o ho ho'
    rcases List.mem_map.mp ho with ⟨r, hr, rfl⟩
    rcases List.mem_singleton.mp ho' with he
    have : freshId s < freshId s := freshId_gt s r (freshId s) hr he
    exact absurd this (lt_irrefl _)

/-- Replacing the middle record by one with the same `_id` preserves
well-formedness. -/
theorem wf_replace_mid (l1 l2 : List Record) (d r : Record)
    (hw : WF (l1 ++ d :: l2)) (hrid : r.rid = d.rid) :
    WF (l1 ++ r :: l2) := by
  constructor
  · intro q hq
    rcases List.mem_append.mp hq with hmem | hmem
    · exact hw.1 q (List.mem_append.mpr (Or.inl hmem))
    · rcases List.mem_cons.mp hmem with rfl | hmem
      · rw [hrid]
        exact hw.1 d (List.mem_append.mpr (Or.inr (List.mem_cons_self d l2)))
      · exact hw.1 q (List.mem_append.mpr (Or.inr (List.mem_cons_of_mem d hmem)))
  · have hsame : (l1 ++ r :: l2).map Record.rid = (l1 ++ d :: l2).map Record.rid := by
      rw [List.map_append, List.map_append, List.map_cons, List.map_cons, hrid]
    rw [hsame]
    exact hw.2

/-- Setting the `age` field to the value it already holds changes nothing. -/
theorem record_set_age_self (d : Record) (a : Int) (h : d.age = some a) :
    { d with age := some a } = d := by
  cases d
  cases h
  rfl

/-- The insert branch of `setAge`: nothing found, so a bare `{ name, age }`
record is saved and the store assigns it the fresh `_id`. -/
theorem setAge_insert (name : String) (age : Int) (s : List Record)
    (h : findByName name s = none) :
    setAge name age s =
      (some age,
        s ++ [{ rid := some (freshId s), name := name, age := some age, extra := [] }]) := by
  simp [setAge, toSave, saveRecord, h]

/-- The update branch of `setAge`: the found record, with only its `age` field
rewritten, is saved under its own `_id`. -/
theorem setAge_update (name : String) (age : Int) (s : List Record)
    (d : Record) (i : Nat) (hf : findByName name s = some d)
    (hi : d.rid = some i) :
    setAge name age s = (some age, replaceById i { d with age := some age } s) := by
  have hr : ({ d with age := some age } : Record).rid = some i := hi
  simp [setAge, toSave, saveRecord, hf, hr]

/-- After a `setAge`, the store is still well-formed and the first record
found under the name holds the supplied age. -/
theorem setAge_post (name : String) (age : Int) (s : List Record) (hw : WF s) :
    WF (setAge name age s).2 ∧
      ∃ d, findByName name (setAge name age s).2 = some d ∧ d.age = some age := by
  cases hfind : findByName name s with
  | none =>
    rw [setAge_insert name age s hfind]
    refine ⟨wf_append_fresh s name (some age) [] hw, ?_⟩
    refine ⟨{ rid := some (freshId s), name := name, age := some age, extra := [] },
      ?_, rfl⟩
    rw [findByName_append_left name s _ (findByName_none name s hfind),
      findByName_cons, if_pos (by simp)]
  | some d =>
    obtain ⟨l1, l2, rfl, h1, h2⟩ := findByName_decomp name _ d hfind
    have hdin : d ∈ l1 ++ d :: l2 :=
      List.mem_append.mpr (Or.inr (List.mem_cons_self d l2))
    obtain ⟨i, hi⟩ := Option.isSome_iff_exists.mp (hw.1 d hdin)
    obtain ⟨hs1, hs2⟩ := rid_not_in_sides l1 l2 d i hw.2 hi
    rw [setAge_update name age _ d i hfind hi,
      replaceById_decomp i _ d l1 l2 hi hs1 hs2]
    refine ⟨wf_replace_mid l1 l2 d _ hw rfl, ?_⟩
    exact ⟨_, findByName_append_mid name l1 l2 _ h1 h2, rfl⟩

/-- When the record found under the name already holds the supplied age,
`setAge` returns that age and leaves the store unchanged. -/
theorem setAge_stable (name : String) (age : Int) (s : List Record)
    (hw : WF s) (d : Record) (hf : findByName name s = some d)
    (hage : d.age = some age) :
    setAge name age s = (some age, s) := by
  obtain ⟨l1, l2, rfl, h1, h2⟩ := findByName_decomp name _ d hf
  have hdin : d ∈ l1 ++ d :: l2 :=
    List.mem_append.mpr (Or.inr (List.mem_cons_self d l2))
  obtain ⟨i, hi⟩ := Option.isSome_iff_exists.mp (hw.1 d hdin)
  obtain ⟨hs1, hs2⟩ := rid_not_in_sides l1 l2 d i hw.2 hi
  rw [setAge_update name age _ d i hf hi, record_set_age_self d age hage,
    replaceById_decomp i d d l1 l2 hi hs1 hs2]

/-!
Supporting lemmas about the callback adapter.
-/

/-- The trailing callback of an argument list built by `promisify` is the
handler it appended. -/
theorem lastHandler_append (l : List Arg) (k : Handler) :
    lastHandler (l ++ [Arg.cb k]) = some k := by
  induction l with
  | nil => rfl
  | cons a t ih =>
    cases t with
    | nil => cases a <;> rfl
    | cons b u => cases a <;> exact ih

/-- The positional values of a pure-value argument list are those values. -/
theorem positionalArgs_map_val (args : List JSVal) :
    positionalArgs (args.map Arg.val) = args := by
  induction args with
  | nil => rfl
  | cons a t ih =>
    simp only [List.map_cons, positionalArgs, List.filterMap_cons]
    simp only [positionalArgs] at ih
    rw [ih]

/-- The positional values of an argument list built by `promisify` are
exactly the supplied arguments, in order. -/
theorem positionalArgs_append_cb (args : List JSVal) (k : Handler) :
    positionalArgs (args.map Arg.val ++ [Arg.cb k]) = args := by
  unfold positionalArgs
  rw [List.filterMap_append]
  have h1 := positionalArgs_map_val args
  unfold positionalArgs at h1
  rw [h1]
  simp

/-!
Supporting lemmas about revision 1's `references` lifecycle.
-/

/-- Once `references.flex` holds a handle, no later event changes it. -/
theorem foldl_flex_some (events : List Event) (refs : References) (f : Nat)
    (h : refs.flex = some f) :
    (List.foldl stepReferences refs events).flex = some f := by
  induction events generalizing refs with
  | nil => exact h
  | cons e es ih =>
    rw [List.foldl_cons]
    apply ih
    cases e with
    | initOk g => simp [stepReferences, h]
    | initErr => exact h
    | request m =>
      simp only [stepReferences]
      split <;> exact h

/-- While `references.flex` is unset, folding the events sets it to the flex
handle of the first successful initialization. -/
theorem foldl_flex_none (events : List Event) (refs : References)
    (h : refs.flex = none) :
    (List.foldl stepReferences refs events).flex = firstFlex events := by
  induction events generalizing refs with
  | nil => exact h
  | cons e es ih =>
    rw [List.foldl_cons]
    cases e with
    | initOk g =>
      have hstep : stepReferences refs (Event.initOk g) = { refs with flex := some g } := by
        simp [stepReferences, h]
      rw [hstep]
      exact foldl_flex_some es _ g rfl
    | initErr => exact ih refs h
    | request m =>
      apply ih
      simp only [stepReferences]
      split <;> exact h

/-- Once `references.modules` holds a handle, no later event changes it. -/
theorem foldl_modules_some (events : List Event) (refs : References) (m : Nat)
    (h : refs.modules = some m) :
    (List.foldl stepReferences refs events).modules = some m := by
  induction events generalizing refs with
  | nil => exact h
  | cons e es ih =>
    rw [List.foldl_cons]
    apply ih
    cases e with
    | initOk g =>
      simp only [stepReferences]
      split <;> exact h
    | initErr => exact h
    | request n => simp [stepReferences, h]

/-- While `references.modules` is unset, folding the events sets it to the
modules handle of the first request. -/
theorem foldl_modules_none (events : List Event) (refs : References)
    (h : refs.modules = none) :
    (List.foldl stepReferences refs events).modules = firstModules events := by
  induction events generalizing refs with
  | nil => exact h
  | cons e es ih =>
    rw [List.foldl_cons]
    cases e with
    | initOk g =>
      apply ih
      simp only [stepReferences]
      split <;> exact h
    | initErr => exact ih refs h
    | request m =>
      have hstep : stepReferences refs (Event.request m) = { refs with modules := some m } := by
        simp [stepReferences, h]
      rw [hstep]
      exact foldl_modules_some es _ m rfl

/-- Once `references.modules` holds a handle, every request observes it. -/
theorem runRequests_some (events : List Event) (refs : References) (m : Nat)
    (h : refs.modules = some m) :
    ∀ o ∈ runRequests refs events, o = some m := by
  induction events generalizing refs with
  | nil => intro o ho; cases ho
  | cons e es ih =>
    cases e with
    | initOk g =>
      intro o ho
      refine ih (stepReferences refs (Event.initOk g)) ?_ o ho
      simp only [stepReferences]
      split <;> exact h
    | initErr =>
      intro o ho
      exact ih refs h o ho
    | request n =>
      have hstep : stepReferences refs (Event.request n) = refs := by
        simp [stepReferences, h]
      intro o ho
      simp only [runRequests, hstep] at ho
      rcases List.mem_cons.mp ho with rfl | ho
      · exact h
      · exact ih refs h o ho

/-- While `references.modules` is unset, every request observes the modules
handle of the first request of the event list. -/
theorem runRequests_none (events : List Event) (refs : References)
    (h : refs.modules = none) :
    ∀ o ∈ runRequests refs events, o = firstModules events := by
  induction events generalizing refs with
  | nil => intro o ho; cases ho
  | cons e es ih =>
    cases e with
    | initOk g =>
      intro o ho
      simp only [runRequests] at ho
      refine ih (stepReferences refs (Event.initOk g)) ?_ o ho
      simp only [stepReferences]
      split <;> exact h
    | initErr =>
      intro o ho
      simp only [runRequests] at ho
      exact ih refs h o ho
    | request m =>
      have hstep : stepReferences refs (Event.request m) = { refs with modules := some m } := by
        simp [stepReferences, h]
      intro o ho
      simp only [runRequests, hstep] at ho
      rcases List.mem_cons.mp ho with rfl | ho
      · rfl
      · exact runRequests_some es _ m rfl o ho

/-!
The claims.
-/

/-- C1: the claim states that a stored record with age 0 is reported through
the "age is 0" sentence, the unset check testing presence rather than
truthiness.  The current code (revision 2, line 246) violates this: on a
store holding Alice with age 0 its `getAge` produces the "not set" sentence,
because `!data.age` is true for the falsy number 0.  Revision 1's
`hasOwnProperty("age")` check (line 57) behaves as the claim states. -/
theorem getAge_age_zero_bug :
    getAge "Alice" [{ rid := some 1, name := "Alice", age := some 0, extra := [] }] =
      "Sorry. You still have not set age for your friend - Alice. You can do that now." ∧
    getAge1 "Alice" [{ rid := some 1, name := "Alice", age := some 0, extra := [] }] =
      "Your friend - Alice\x27s age is 0." := by
  exact ⟨rfl, rfl⟩

/-- C2: when the lookup finds no record, `setAge` persists a fresh
`{ name, age }` record (insert, the store assigning the `_id`); when it finds
one, it persists the full found record with only the `age` field rewritten
(update, `_id`, `name` and all `extra` fields unchanged); in both cases it
returns the persisted record's `age` field. -/
theorem setAge_upsert (name : String) (age : Int) (s : List Record) :
    (findByName name s = none →
      setAge name age s =
        (some age,
          s ++ [{ rid := some (freshId s), name := name, age := some age, extra := [] }])) ∧
    (∀ d i, findByName name s = some d → d.rid = some i →
      setAge name age s = (some age, replaceById i { d with age := some age } s)) :=
  ⟨fun h => setAge_insert name age s h,
   fun d i hf hi => setAge_update name age s d i hf hi⟩

/-- Witness for C2: an insert into the empty store, and an update of a record
that carries an extra field, which is preserved. -/
theorem setAge_upsert_witness :
    setAge "Bob" 5 [] =
      (some 5, [{ rid := some 0, name := "Bob", age := some 5, extra := [] }]) ∧
    setAge "Bob" 5
        [{ rid := some 3, name := "Bob", age := none, extra := [("height", 180)] }] =
      (some 5,
        [{ rid := some 3, name := "Bob", age := some 5, extra := [("height", 180)] }]) := by
  constructor
  · exact (setAge_upsert "Bob" 5 []).1 rfl
  · have h := (setAge_upsert "Bob" 5
      [{ rid := some 3, name := "Bob", age := none, extra := [("height", 180)] }]).2
      { rid := some 3, name := "Bob", age := none, extra := [("height", 180)] } 3
      (by decide) rfl
    simpa [replaceById] using h

/-- C3: the claim states the write-read round trip yields the "age is {age}"
sentence for every pair.  The current code violates it at age 0: `setAge
"Alice" 0` succeeds and returns age 0, yet the subsequent `getAge` renders
the "not set" sentence; with a truthy age such as 30 the round trip behaves
as claimed. -/
theorem roundtrip_age_zero_bug :
    (setAge "Alice" 0 []).1 = some 0 ∧
    getAge "Alice" (setAge "Alice" 0 []).2 =
      "Sorry. You still have not set age for your friend - Alice. You can do that now." ∧
    getAge "Alice" (setAge "Alice" 30 []).2 = "Your friend - Alice\x27s age is 30." := by
  exact ⟨rfl, rfl, rfl⟩

/-- C4 counterexample: the claim states every store error results in a
rejected outcome, but in revision 1 a store error is logged once and then
swallowed - `getAge` RESOLVES with `undefined` instead of rejecting. -/
theorem getAge1_swallows_error :
    getAge1E "Alice" (Except.error (JSVal.str "boom")) =
      (Outcome.ok JSVal.undef, [JSVal.str "boom"]) := rfl

/-- C4 amended: in revision 2 every store error (the find of `getAge`, the
find or the save of `setAge`) is logged exactly once and the operation
rejects with that very error, with no retry; in revision 1 the error is
likewise logged exactly once, but the catch handler returns the logger's
result, so the operation resolves with `undefined` instead of rejecting. -/
theorem storeError_logged_once (name : String) (age : Int) (e : JSVal)
    (rs : List Record) (saveRes : Record → Except JSVal Record) :
    getAgeE name (Except.error e) = (Outcome.err e, [e]) ∧
    setAgeE name age (Except.error e) saveRes = (Outcome.err e, [e]) ∧
    (saveRes (toSave name age rs.head?) = Except.error e →
      setAgeE name age (Except.ok rs) saveRes = (Outcome.err e, [e])) ∧
    getAge1E name (Except.error e) = (Outcome.ok JSVal.undef, [e]) := by
  refine ⟨rfl, rfl, ?_, rfl⟩
  intro h
  simp [setAgeE, h]

/-- Witness for C4 at a concrete failing save. -/
theorem storeError_logged_once_witness :
    setAgeE "Alice" 7 (Except.ok []) (fun _ => Except.error (JSVal.str "down")) =
      (Outcome.err (JSVal.str "down"), [JSVal.str "down"]) :=
  (storeError_logged_once "Alice" 7 (JSVal.str "down") []
    (fun _ => Except.error (JSVal.str "down"))).2.2.1 rfl

/-- C5: for every name whose lookup finds no record, or a record without the
age attribute, the current `getAge` yields exactly the "Sorry..." sentence
with that name interpolated. -/
theorem getAge_not_set (name : String) (s : List Record)
    (h : findByName name s = none ∨ ∃ d, findByName name s = some d ∧ d.age = none) :
    getAge name s =
      "Sorry. You still have not set age for your friend - " ++ name ++
        ". You can do that now." := by
  unfold getAge
  rcases h with h | ⟨d, h, hage⟩
  · rw [h]; rfl
  · rw [h]
    simp [readMessage, hage, jsFalsyAge, notSetMsg]

/-- Witness for C5 on the empty store. -/
theorem getAge_not_set_witness :
    getAge "Alice" [] =
      "Sorry. You still have not set age for your friend - Alice. You can do that now." :=
  getAge_not_set "Alice" [] (Or.inl rfl)

/-- C6: calling `setAge` twice with the same name and age: after the first
call the store's record for the name holds the supplied age, and the second
call finds it (update branch, not insert), returns the age again and leaves
the store exactly as the first call left it - no second record keyed by the
name is created. -/
theorem setAge_idem (name : String) (age : Int) (s : List Record) (hw : WF s) :
    (∃ d, findByName name (setAge name age s).2 = some d ∧ d.age = some age) ∧
    setAge name age (setAge name age s).2 = (some age, (setAge name age s).2) := by
  obtain ⟨hw1, d, hfind, hage⟩ := setAge_post name age s hw
  exact ⟨⟨d, hfind, hage⟩, setAge_stable name age _ hw1 d hfind hage⟩

/-- Witness for C6 on the empty store. -/
theorem setAge_idem_witness :
    (∃ d, findByName "X" (setAge "X" 4 []).2 = some d ∧ d.age = some 4) ∧
    setAge "X" 4 (setAge "X" 4 []).2 = (some 4, (setAge "X" 4 []).2) :=
  setAge_idem "X" 4 [] ⟨fun r hr => absurd hr (List.not_mem_nil r), List.nodup_nil⟩

/-- C7: a `promisify`-wrapped operation that invokes its handler with a falsy
error resolves with the result argument, and one that invokes it with a
truthy error rejects with the error argument. -/
theorem promisify_error_first (e d : JSVal) (args : List JSVal) :
    (truthyVal e = false → promisify (invokeWith e d) args = Promise.resolved d) ∧
    (truthyVal e = true → promisify (invokeWith e d) args = Promise.rejected e) := by
  constructor <;> intro h <;>
    simp [promisify, invokeWith, lastHandler_append, errorFirst, h]

/-- Witness for C7: a handler call with (null, 42) resolves with 42, and one
with a truthy error and undefined result rejects with the error. -/
theorem promisify_error_first_witness :
    promisify (invokeWith JSVal.null (JSVal.num 42)) [] =
      Promise.resolved (JSVal.num 42) ∧
    promisify (invokeWith (JSVal.str "oops") JSVal.undef) [] =
      Promise.rejected (JSVal.str "oops") :=
  ⟨(promisify_error_first JSVal.null (JSVal.num 42) []).1 rfl,
   (promisify_error_first (JSVal.str "oops") JSVal.undef []).2 rfl⟩

/-- C8: `promisify` forwards every supplied argument to the wrapped operation
in order and appends the handler as the final argument: an operation that
reads the positional arguments ahead of its trailing handler observes exactly
the supplied list, in order, and succeeds through that handler. -/
theorem promisify_forwards_args (f : List JSVal → JSVal) (args : List JSVal) :
    promisify (echoOp f) args = Promise.resolved (f args) := by
  unfold promisify echoOp
  rw [lastHandler_append, positionalArgs_append_cb]
  rfl

/-- C9: in revision 1, whenever the lookup finds no record or a record
without an age field, `getAge` produces the literal string "Sorry. undefined":
the sentence is stored under the Latin property name but read back under the
Cyrillic homoglyph name, which is absent, so the interpolated value is
undefined and the friend's name never appears in the output. -/
theorem getAge1_homoglyph (name : String) (s : List Record)
    (h : findByName name s = none ∨ ∃ d, findByName name s = some d ∧ d.age = none) :
    getAge1 name s = "Sorry. undefined" := by
  unfold getAge1
  rcases h with h | ⟨d, h, hage⟩
  · rw [h]; rfl
  · rw [h]
    simp only [mkPrepared1, hage]
    rfl

/-- Witness for C9 on the empty store. -/
theorem getAge1_homoglyph_witness : getAge1 "Alice" [] = "Sorry. undefined" :=
  getAge1_homoglyph "Alice" [] (Or.inl rfl)

/-- C10: over every lifecycle event sequence started from the null
references, `references.flex` ends as the flex handle of the first successful
initialization and `references.modules` as the modules handle of the first
request - each is assigned at most once and never reassigned - and every
request is served with the modules handle captured from the first request
rather than its own per-request one. -/
theorem references_assigned_once (events : List Event) :
    (List.foldl stepReferences { modules := none, flex := none } events).flex =
      firstFlex events ∧
    (List.foldl stepReferences { modules := none, flex := none } events).modules =
      firstModules events ∧
    ∀ o ∈ runRequests { modules := none, flex := none } events, o = firstModules events :=
  ⟨foldl_flex_none events _ rfl, foldl_modules_none events _ rfl,
   runRequests_none events _ rfl⟩

/-- Witness for C10: with an initialization and two requests, the handle the
second request observes is the first request's handle. -/
theorem references_assigned_once_witness :
    some 3 = firstModules [Event.initOk 7, Event.request 3, Event.request 5] :=
  (references_assigned_once [Event.initOk 7, Event.request 3, Event.request 5]).2.2
    (some 3) (by decide)


